import Mathlib

/-!
Shallow embedding of `main.py` of getsentry/image-mirror.

The program resolves (registry, repository, tag) triples to per-architecture
content digests over the Docker/OCI registry HTTP protocol and mirrors the
images to a destination registry.  Network interactions are modelled by an
oracle structure `Net`; Python exceptions are modelled by the error type
`PyErr` together with `Except`.  Python strings are modelled as Lean
`String`s, with the string operations the source uses (`str.split`,
`str.partition`, `str.replace`, `ast.literal_eval` of a quoted string
literal, `urllib.parse.urlencode`) re-implemented over `List Char` so that
they are executable by the kernel.
-/

/-- Python exceptions that `main.py` can raise or catch. -/
inductive PyErr where
  | httpError (code : Nat)
  | assertionError (msg : String)
  | keyError (k : String)
  | valueError (msg : String)
  | notImplementedError (ct : String)
deriving DecidableEq, Repr

/-! ### Python string primitives over `List Char` -/

/-- Model of Python `s.split(sep)` for a one-character separator:
splits on every occurrence, keeping empty segments. -/
def splitChar (sep : Char) : List Char → List (List Char)
  | [] => [[]]
  | c :: rest =>
    let r := splitChar sep rest
    if c = sep then [] :: r
    else
      match r with
      | [] => [[c]]
      | h :: t => (c :: h) :: t

/-- Model of Python `s.partition(sep)` for a one-character separator:
returns the part before the first occurrence and the part after it
(the "after" part is empty when the separator is absent, as in Python,
where `partition` then returns `(s, two empty strings)`). -/
def partitionChar (sep : Char) : List Char → List Char × List Char
  | [] => ([], [])
  | c :: rest =>
    if c = sep then ([], rest)
    else
      let p := partitionChar sep rest
      (c :: p.1, p.2)

/-- One step of `str.replace`, fuelled so that the kernel can evaluate it:
scans left to right, replacing each non-overlapping occurrence of `old`
(the replacement text is never rescanned, as in Python). -/
def replaceAux (old new : List Char) : Nat → List Char → List Char
  | _, [] => []
  | 0, l => l
  | fuel + 1, c :: rest =>
    if old ≠ [] ∧ old.isPrefixOf (c :: rest) then
      new ++ replaceAux old new fuel (rest.drop (old.length - 1))
    else
      c :: replaceAux old new fuel rest

/-- Model of Python `s.replace(old, new)` (for non-empty `old`). -/
def pyReplace (s old new : String) : String :=
  ⟨replaceAux old.data new.data s.data.length s.data⟩

/-- Model of Python `old in s` (substring test) over char lists. -/
def hasSubList (old : List Char) : List Char → Bool
  | [] => old.isEmpty
  | c :: rest => old.isPrefixOf (c :: rest) || hasSubList old rest

/-- Substring test on strings. -/
def hasSub (s old : String) : Bool :=
  hasSubList old.data s.data

/-- ASCII lower-casing of one character (the header names the source looks
up are ASCII). -/
def asciiLower (c : Char) : Char :=
  if 'A' ≤ c ∧ c ≤ 'Z' then Char.ofNat (c.toNat + 32) else c

/-- Case-insensitive lookup in a header mapping, modelling the
case-insensitive `email.message` header access of `urllib`. -/
def headerGet (headers : List (String × String)) (k : String) : Option String :=
  (headers.find? fun kv => kv.1.data.map asciiLower == k.data.map asciiLower).map (·.2)

/-- Strict lexicographic comparison of char lists by code point, the order
Python uses to compare `str` values. -/
def charListLt : List Char → List Char → Bool
  | _, [] => false
  | [], _ :: _ => true
  | a :: as, b :: bs => decide (a < b) || (a == b && charListLt as bs)

/-! ### Python dict operations (insertion-ordered association lists) -/

/-- Python `d[k] = v`: overwrite in place when the key exists (keeping its
position), otherwise append. -/
def dictSet (d : List (String × String)) (k v : String) : List (String × String) :=
  if d.any (·.1 == k) then d.map fun kv => if kv.1 == k then (k, v) else kv
  else d ++ [(k, v)]

/-- Python `d.pop(k)`: the value and the dict without the key, or `none`
(a `KeyError`) when the key is absent. -/
def dictPop (d : List (String × String)) (k : String) :
    Option (String × List (String × String)) :=
  match d.lookup k with
  | none => none
  | some v => some (v, d.filter fun kv => ! (kv.1 == k))

/-- Python `d.setdefault(k, v)`. -/
def dictSetdefault (d : List (String × String)) (k v : String) :
    List (String × String) :=
  if d.any (·.1 == k) then d else d ++ [(k, v)]

/-! ### `_parse_auth_header` -/

/-- Unescapes the body of a double-quoted string literal the way
`ast.literal_eval` does for the escapes that occur in challenge headers
(backslash-escaped backslashes and quotes; other characters verbatim). -/
def unescapeChars : List Char → List Char
  | [] => []
  | [c] => [c]
  | a :: b :: rest =>
    if a = '\\' ∧ (b = '\\' ∨ b = '"') then b :: unescapeChars rest
    else a :: unescapeChars (b :: rest)

/-- Model of `ast.literal_eval(v)` restricted to the double-quoted string
literals that appear as challenge parameter values; anything else is the
`ValueError`/`SyntaxError` that `literal_eval` raises. -/
def literalEval (v : String) : Except PyErr String :=
  match v.data with
  | '"' :: rest =>
    match rest.getLast? with
    | some '"' => .ok ⟨unescapeChars rest.dropLast⟩
    | _ => .error (.valueError v)
  | _ => .error (.valueError v)

/-- `_parse_auth_header`: asserts the `Bearer ` marker, strips it, splits
the remainder on commas, splits each part on the first `=`, evaluates the
quoted value and collects the pairs into an insertion-ordered dict. -/
def parseAuthHeader (s : String) : Except PyErr (List (String × String)) :=
  if "Bearer ".data.isPrefixOf s.data then
    let parts := splitChar ',' (s.data.drop 7)
    parts.foldlM
      (fun ret part => do
        let p := partitionChar '=' part
        let v ← literalEval ⟨p.2⟩
        pure (dictSet ret ⟨p.1⟩ v))
      []
  else .error (.assertionError s)

/-! ### The network oracle and `_auth_challenge` -/

/-- Outcome of the anonymous probe `GET https://registry/v2/`: either a
non-error response (no exception raised) or an `HTTPError` carrying a
status code and response headers. -/
inductive ProbeResult where
  | ok
  | httpError (code : Nat) (headers : List (String × String))
deriving DecidableEq

/-- The manifest response: declared content type, the
`Docker-Content-Digest` response header, and the JSON body's optional
`manifests` and `config.digest` fields (`none` models a missing key,
which the source turns into a `KeyError` on access). -/
structure PlatformManifest where
  architecture : String
  digest : String
deriving DecidableEq, Repr

structure ManifestResp where
  contentType : String
  dockerContentDigest : String
  manifests : Option (List PlatformManifest)
  configDigest : Option String
deriving DecidableEq

/-- The config blob body's optional `architecture` field. -/
structure BlobResp where
  architecture : Option String
deriving DecidableEq

/-- The network oracle: one field per kind of HTTP request the source
performs.  `token` receives the full token-endpoint URL (realm plus
encoded query string); `manifest` and `blob` receive the bearer token that
the source puts in the `Authorization` header. -/
structure Net where
  probe : String → ProbeResult
  token : String → Except PyErr String
  manifest : String → String → String → String → Except PyErr ManifestResp
  blob : String → String → String → String → Except PyErr BlobResp

/-- `_auth_challenge` (without the `lru_cache`, which is modelled
separately by `runChallenges`): probe `/v2/`, demand a 401 with a
`WWW-Authenticate` header, parse it, hoist `realm` out and default
`scope`. -/
def authChallenge (net : Net) (registry : String) :
    Except PyErr (String × List (String × String)) :=
  match net.probe registry with
  | .ok => .error (.assertionError ("expected auth challenge: " ++ registry))
  | .httpError code headers =>
    match headerGet headers "www-authenticate" with
    | none => .error (.httpError code)
    | some h =>
      if code ≠ 401 then .error (.httpError code)
      else do
        let auth ← parseAuthHeader h
        match dictPop auth "realm" with
        | none => .error (.keyError "realm")
        | some (realm, rest) =>
          pure (realm, dictSetdefault rest "scope" "repository:user/image:pull")

/-! ### `urllib.parse.urlencode` and `_digests` -/

/-- UTF-8 encoding of a code point, for percent-encoding. -/
def utf8Bytes (n : Nat) : List Nat :=
  if n < 0x80 then [n]
  else if n < 0x800 then [0xC0 + n / 0x40, 0x80 + n % 0x40]
  else if n < 0x10000 then
    [0xE0 + n / 0x1000, 0x80 + (n / 0x40) % 0x40, 0x80 + n % 0x40]
  else
    [0xF0 + n / 0x40000, 0x80 + (n / 0x1000) % 0x40,
     0x80 + (n / 0x40) % 0x40, 0x80 + n % 0x40]

/-- One uppercase hexadecimal digit. -/
def hexChar (n : Nat) : Char :=
  if n < 10 then Char.ofNat (48 + n) else Char.ofNat (55 + n)

/-- `%XX` percent-encoding of one byte. -/
def pctByte (b : Nat) : List Char :=
  ['%', hexChar (b / 16), hexChar (b % 16)]

/-- `urllib.parse.quote_plus` of one character: alphanumerics and
`_ . - ~` kept, space becomes `+`, everything else percent-encoded
byte-wise. -/
def quotePlusChar (c : Char) : List Char :=
  if c.isAlphanum then [c]
  else if c = '_' ∨ c = '.' ∨ c = '-' ∨ c = '~' then [c]
  else if c = ' ' then ['+']
  else ((utf8Bytes c.toNat).map pctByte).flatten

def quotePlusList (l : List Char) : List Char :=
  (l.map quotePlusChar).flatten

/-- Joins encoded `k=v` pairs with `&`. -/
def joinAmp : List (List Char) → List Char
  | [] => []
  | [x] => x
  | x :: y :: rest => x ++ '&' :: joinAmp (y :: rest)

/-- `urllib.parse.urlencode` over an insertion-ordered dict. -/
def urlencode (auth : List (String × String)) : String :=
  ⟨joinAmp (auth.map fun kv => quotePlusList kv.1.data ++ '=' :: quotePlusList kv.2.data)⟩

/-- Line 55 of the source: specialize the cached challenge parameters for
one repository by replacing the placeholder `user/image` in EVERY value. -/
def specializeAuth (auth : List (String × String)) (image : String) :
    List (String × String) :=
  auth.map fun kv => (kv.1, pyReplace kv.2 "user/image" image)

/-- The token-endpoint URL `realm?urlencode(auth)`. -/
def authUrl (realm : String) (auth : List (String × String)) : String :=
  realm ++ "?" ++ urlencode auth

def LIST : String := "application/vnd.docker.distribution.manifest.list.v2+json"
def SINGLE : String := "application/vnd.docker.distribution.manifest.v2+json"
def INDEX : String := "application/vnd.oci.image.index.v1+json"

/-- `_digests`: resolve one (registry, repository, tag) triple to its
(architecture, digest) pairs, branching on the declared content type of
the manifest response. -/
def _digests (net : Net) (registry image tag : String) :
    Except PyErr (List (String × String)) := do
  let ch ← authChallenge net registry
  let auth := specializeAuth ch.2 image
  let token ← net.token (authUrl ch.1 auth)
  let resp ← net.manifest registry image tag token
  if resp.contentType = LIST ∨ resp.contentType = INDEX then
    match resp.manifests with
    | none => .error (.keyError "manifests")
    | some ms => pure (ms.map fun m => (m.architecture, m.digest))
  else if resp.contentType = SINGLE then
    match resp.configDigest with
    | none => .error (.keyError "config")
    | some blobDigest => do
      let b ← net.blob registry image blobDigest token
      match b.architecture with
      | none => .error (.keyError "architecture")
      | some arch => pure [(arch, resp.dockerContentDigest)]
  else .error (.notImplementedError resp.contentType)

/-! ### `Image` and the `update` operation -/

/-- The architecture allow-list `ARCHS` (a `frozenset` in the source; only
membership is ever used). -/
def ARCHS : List String := ["amd64", "arm64", "arm64/v8"]

structure Image where
  registry : String
  source : String
  tag : String
  digests : List String
deriving DecidableEq, Repr

/-- The architecture filter of `Image.update`, generalized over the
allow-list: keep the digests of the pairs whose architecture is in the
allow-list. -/
def archFilter (allow : List String) (pairs : List (String × String)) :
    List String :=
  (pairs.filter fun p => decide (p.1 ∈ allow)).map Prod.snd

/-- `Image.update`: resolve the image's digests and return a copy of the
record with the `digests` field replaced by the filtered result. -/
def Image.update (net : Net) (img : Image) : Except PyErr Image := do
  let pairs ← _digests net img.registry img.source img.tag
  pure { img with digests := archFilter ARCHS pairs }

/-! ### The `sync` command (per-image digest diff and transfer) -/

/-- The destination repository name `getsentry/image-mirror-...`. -/
def destImage (img : Image) : String :=
  "getsentry/image-mirror-" ++ pyReplace img.source "/" "-"

/-- The destination-side lookup of the `sync` command: a resolution
against `ghcr.io` whose `HTTPError` with code 403 or 404 is converted to
an empty digest list; every other error propagates unmodified. -/
def targetDigestInfo (net : Net) (img : Image) :
    Except PyErr (List (String × String)) :=
  match _digests net "ghcr.io" (destImage img) img.tag with
  | .ok v => .ok v
  | .error (.httpError code) =>
    if code ≠ 403 ∧ code ≠ 404 then .error (.httpError code) else .ok []
  | .error e => .error e

/-- Insertion of a string into a list sorted by Python string order. -/
def insertStr (x : String) : List String → List String
  | [] => [x]
  | h :: t => if charListLt h.data x.data then h :: insertStr x t else x :: h :: t

/-- `sorted(...)` on strings. -/
def sortStrings : List String → List String
  | [] => []
  | h :: t => insertStr h (sortStrings t)

/-- `sorted(frozenset(img.digests) - frozenset(target_digests))`. -/
def todoOf (digests targetDigests : List String) : List String :=
  sortStrings (digests.filter fun d => ! targetDigests.contains d).dedup

/-- The digests the `sync` command pulls, tags and pushes for one image
(the non-dry-run path): nothing when the diff is empty, otherwise EVERY
known digest of the image, in table order. -/
def syncTransfers (net : Net) (img : Image) : Except PyErr (List String) := do
  let info ← targetDigestInfo net img
  let targetDigests := info.map Prod.snd
  if todoOf img.digests targetDigests = [] then pure []
  else pure img.digests

/-! ### The `lru_cache` on `_auth_challenge` -/

/-- One process run of challenge acquisitions: for each requested registry
host in order, a cache hit reuses the stored challenge with no probe; a
miss performs the probe (recorded in the returned trace) and stores the
challenge only when acquisition succeeds, matching `functools.lru_cache`,
which does not cache raised exceptions.  Returns the final cache and the
list of probed hosts with multiplicity. -/
def runChallenges (net : Net) :
    List String → List (String × (String × List (String × String))) →
    List (String × (String × List (String × String))) × List String
  | [], cache => (cache, [])
  | reg :: rest, cache =>
    match cache.lookup reg with
    | some _ => runChallenges net rest cache
    | none =>
      match authChallenge net reg with
      | .ok ch =>
        let r := runChallenges net rest (cache ++ [(reg, ch)])
        (r.1, reg :: r.2)
      | .error _ =>
        let r := runChallenges net rest cache
        (r.1, reg :: r.2)

/-! ### The `update` command (resolve all, sort, rewrite the table) -/

/-- Python `<=` on tuples of strings (digest tuples), lexicographic with a
shorter prefix first. -/
def listStrLeB : List String → List String → Bool
  | [], _ => true
  | _ :: _, [] => false
  | a :: as, b :: bs => charListLt a.data b.data || (a == b && listStrLeB as bs)

/-- The comparison `imgs.sort()` uses: `NamedTuple` ordering, i.e. the
lexicographic order of the field tuple (registry, source, tag, digests). -/
def imageLeB (a b : Image) : Bool :=
  charListLt a.registry.data b.registry.data ||
    (a.registry == b.registry &&
      (charListLt a.source.data b.source.data ||
        (a.source == b.source &&
          (charListLt a.tag.data b.tag.data ||
            (a.tag == b.tag && listStrLeB a.digests b.digests)))))

def insertImage (x : Image) : List Image → List Image
  | [] => [x]
  | h :: t => if imageLeB x h then x :: h :: t else h :: insertImage x t

/-- `imgs.sort()`: a sorted permutation of the updated images under the
tuple order. -/
def sortImages : List Image → List Image
  | [] => []
  | h :: t => insertImage h (sortImages t)

/-- The resolution-and-reorder core of the `update` command: update every
image (in declaration order), then sort the results before the table text
is generated from them. -/
def updateCommand (net : Net) (images : List Image) : Except PyErr (List Image) := do
  let updated ← images.mapM (Image.update net)
  pure (sortImages updated)

/-! ### Helper lemmas on association lists and `Except` -/

lemma except_bind_ok {ε α β : Type} (a : α) (f : α → Except ε β) :
    (Except.ok a : Except ε α) >>= f = f a := rfl

lemma except_bind_error {ε α β : Type} (e : ε) (f : α → Except ε β) :
    (Except.error e : Except ε α) >>= f = Except.error e := rfl

lemma lookup_filter_self (k : String) (l : List (String × String)) :
    (l.filter fun kv => ! (kv.1 == k)).lookup k = none := by
  induction l with
  | nil => rfl
  | cons kv t ih =>
    by_cases h : kv.1 = k
    · simpa [List.filter_cons, h] using ih
    · have hbeq : (kv.1 == k) = false := by simpa [beq_iff_eq] using h
      have hbeq' : (k == kv.1) = false := by simpa [beq_iff_eq] using Ne.symm h
      simp [List.filter_cons, hbeq, List.lookup, hbeq', ih]

lemma lookup_append_of_none {β : Type} {k : String} {l l' : List (String × β)}
    (h : l.lookup k = none) : (l ++ l').lookup k = l'.lookup k := by
  induction l with
  | nil => rfl
  | cons kv t ih =>
    by_cases hk : k = kv.1
    · simp [List.lookup, hk] at h
    · have hbeq : (k == kv.1) = false := by simpa [beq_iff_eq] using hk
      simp only [List.cons_append, List.lookup, hbeq] at h ⊢
      exact ih h

lemma lookup_isSome_of_any {k : String} {l : List (String × String)}
    (h : l.any (·.1 == k) = true) : ∃ v, l.lookup k = some v := by
  induction l with
  | nil => simp at h
  | cons kv t ih =>
    by_cases hk : kv.1 = k
    · refine ⟨kv.2, ?_⟩
      have hb : (k == kv.1) = true := by simpa [beq_iff_eq] using hk.symm
      simp [List.lookup, hb]
    · have hbeq : (kv.1 == k) = false := by simpa [beq_iff_eq] using hk
      rw [List.any_cons, hbeq, Bool.false_or] at h
      obtain ⟨v, hv⟩ := ih h
      have hbeq' : (k == kv.1) = false := by simpa [beq_iff_eq] using Ne.symm hk
      exact ⟨v, by simp [List.lookup, hbeq', hv]⟩

lemma lookup_none_of_not_any {k : String} {l : List (String × String)}
    (h : l.any (·.1 == k) = false) : l.lookup k = none := by
  induction l with
  | nil => rfl
  | cons kv t ih =>
    rw [List.any_cons] at h
    have h1 : (kv.1 == k) = false := by
      cases hb : (kv.1 == k) <;> simp [hb] at h ⊢
    have h2 : (t.any (·.1 == k)) = false := by
      cases hb : (t.any (·.1 == k)) <;> simp [hb] at h ⊢
    have hbeq' : (k == kv.1) = false := by
      have : ¬ kv.1 = k := by simpa [beq_iff_eq] using h1
      simpa [beq_iff_eq] using Ne.symm this
    simp [List.lookup, hbeq', ih h2]

lemma dictSetdefault_lookup_other {d : List (String × String)} {k k' v : String}
    (hne : k' ≠ k) (h : d.lookup k' = none) :
    (dictSetdefault d k v).lookup k' = none := by
  unfold dictSetdefault
  by_cases ha : d.any (·.1 == k) = true
  · rw [if_pos ha]; exact h
  · have hbeq : (k' == k) = false := by simpa [beq_iff_eq] using hne
    rw [if_neg ha, lookup_append_of_none h]
    simp [List.lookup, hbeq]

lemma dictSetdefault_lookup_self (d : List (String × String)) (k v : String) :
    ∃ w, (dictSetdefault d k v).lookup k = some w := by
  unfold dictSetdefault
  by_cases ha : d.any (·.1 == k) = true
  · rw [if_pos ha]; exact lookup_isSome_of_any ha
  · have hb : d.any (·.1 == k) = false := Bool.eq_false_iff.mpr ha
    refine ⟨v, ?_⟩
    rw [if_neg ha, lookup_append_of_none (lookup_none_of_not_any hb)]
    simp [List.lookup]

/-! ## C5: the constructed challenge hoists `realm` and always has `scope` -/

/-- C5.  Whenever `_auth_challenge` succeeds (the 401 probe yielded a
well-formed Bearer challenge), the returned parameter mapping contains no
`realm` key — it is hoisted out as the token-endpoint URL — and always
contains a `scope` key, defaulted to `repository:user/image:pull` when
the header carried none (the witness exercises exactly that defaulting). -/
theorem challenge_params_realm_scope (net : Net) (reg realm : String)
    (params : List (String × String))
    (h : authChallenge net reg = .ok (realm, params)) :
    params.lookup "realm" = none ∧ ∃ v, params.lookup "scope" = some v := by
  unfold authChallenge at h
  cases hp : net.probe reg with
  | ok => simp [hp] at h
  | httpError code headers =>
    simp only [hp] at h
    cases hh : headerGet headers "www-authenticate" with
    | none => simp [hh] at h
    | some hdr =>
      simp only [hh] at h
      by_cases hc : code = 401
      · rw [if_neg (by simp [hc])] at h
        cases hpar : parseAuthHeader hdr with
        | error e => simp [hpar, except_bind_error] at h
        | ok auth =>
          simp only [hpar, except_bind_ok] at h
          cases hpop : dictPop auth "realm" with
          | none => simp [hpop] at h
          | some rr =>
            obtain ⟨rv, rest⟩ := rr
            simp only [hpop] at h
            have h2 : rv = realm ∧
                dictSetdefault rest "scope" "repository:user/image:pull" = params := by
              simpa [pure, Except.pure, Prod.ext_iff] using h
            obtain ⟨rfl, hparams⟩ := h2
            have hrest : rest.lookup "realm" = none := by
              unfold dictPop at hpop
              cases hl : auth.lookup "realm" with
              | none => simp [hl] at hpop
              | some v =>
                simp only [hl, Option.some.injEq] at hpop
                have hpop' : v = rv ∧
                    auth.filter (fun kv => ! (kv.1 == "realm")) = rest := by
                  simpa [Prod.ext_iff] using hpop
                rw [← hpop'.2]
                exact lookup_filter_self _ _
            subst hparams
            exact ⟨dictSetdefault_lookup_other (by decide) hrest,
              dictSetdefault_lookup_self _ _ _⟩
      · rw [if_pos hc] at h; simp at h

/-! ### Concrete oracles used by witnesses and counterexamples -/

/-- A Bearer challenge header carrying no `scope` parameter. -/
def exampleHdr : String :=
  "Bearer realm=\"https://auth.example/token\",service=\"registry.example\""

/-- A registry whose manifest endpoint serves a manifest list with three
architectures. -/
def listNet : Net where
  probe := fun _ => .httpError 401 [("www-authenticate", exampleHdr)]
  token := fun _ => .ok "tok"
  manifest := fun _ _ _ _ =>
    .ok ⟨LIST, "sha256:outer",
      some [⟨"amd64", "sha256:aaa"⟩, ⟨"arm64", "sha256:bbb"⟩,
        ⟨"s390x", "sha256:ccc"⟩], none⟩
  blob := fun _ _ _ _ => .ok ⟨some "arm64"⟩

/-- A registry whose manifest list advertises two entries with the same
`platform.architecture`. -/
def dupNet : Net where
  probe := fun _ => .httpError 401 [("www-authenticate", exampleHdr)]
  token := fun _ => .ok "tok"
  manifest := fun _ _ _ _ =>
    .ok ⟨LIST, "sha256:outer",
      some [⟨"amd64", "sha256:aaa"⟩, ⟨"amd64", "sha256:bbb"⟩], none⟩
  blob := fun _ _ _ _ => .ok ⟨some "amd64"⟩

/-- A registry that answers with the single-manifest content type,
`Docker-Content-Digest: sha256:zzz`, and a config blob reporting
`architecture: arm64`. -/
def singleNet : Net where
  probe := fun _ => .httpError 401 [("www-authenticate", exampleHdr)]
  token := fun _ => .ok "tok"
  manifest := fun _ _ _ _ => .ok ⟨SINGLE, "sha256:zzz", none, some "sha256:cfg"⟩
  blob := fun _ _ _ _ => .ok ⟨some "arm64"⟩

/-- Probe outcomes that violate the expected challenge protocol, selected
by host name. -/
def probeNet : Net where
  probe := fun reg =>
    if reg = "ok.example" then .ok
    else if reg = "nohdr.example" then .httpError 401 []
    else .httpError 500 [("www-authenticate", exampleHdr)]
  token := fun _ => .error (.httpError 500)
  manifest := fun _ _ _ _ => .error (.httpError 500)
  blob := fun _ _ _ _ => .error (.httpError 500)

/-- A destination registry whose manifest lookups fail with a status that
depends on the tag. -/
def destNet : Net where
  probe := fun _ => .httpError 401 [("www-authenticate", exampleHdr)]
  token := fun _ => .ok "tok"
  manifest := fun _ _ tag _ =>
    if tag = "missing" then .error (.httpError 404)
    else if tag = "forbidden" then .error (.httpError 403)
    else .error (.httpError 500)
  blob := fun _ _ _ _ => .ok ⟨some "amd64"⟩

/-- A destination registry that already holds exactly the digest
`sha256:d1` under the looked-up tag. -/
def holdsD1Net : Net where
  probe := fun _ => .httpError 401 [("www-authenticate", exampleHdr)]
  token := fun _ => .ok "tok"
  manifest := fun _ _ _ _ =>
    .ok ⟨LIST, "sha256:outer", some [⟨"amd64", "sha256:d1"⟩], none⟩
  blob := fun _ _ _ _ => .ok ⟨some "amd64"⟩

/-! ## C6: a challenge arises only from a 401 with `WWW-Authenticate` -/

/-- C6.  `_auth_challenge` yields a challenge only when the anonymous
probe raised an HTTP 401 carrying a `WWW-Authenticate` header; a
non-error probe response fails the `expected auth challenge` assertion,
and a non-401 `HTTPError`, or a 401 without the header, re-raises the
`HTTPError` to the caller. -/
theorem probe_protocol_violations (net : Net) (reg : String) :
    (∀ realm params, authChallenge net reg = .ok (realm, params) →
      ∃ headers hdr, net.probe reg = .httpError 401 headers ∧
        headerGet headers "www-authenticate" = some hdr) ∧
    (net.probe reg = .ok →
      authChallenge net reg =
        .error (.assertionError ("expected auth challenge: " ++ reg))) ∧
    (∀ code headers, net.probe reg = .httpError code headers → code ≠ 401 →
      authChallenge net reg = .error (.httpError code)) ∧
    (∀ code headers, net.probe reg = .httpError code headers →
      headerGet headers "www-authenticate" = none →
      authChallenge net reg = .error (.httpError code)) := by
  refine ⟨?_, ?_, ?_, ?_⟩
  · intro realm params h
    unfold authChallenge at h
    cases hp : net.probe reg with
    | ok => simp [hp] at h
    | httpError code headers =>
      simp only [hp] at h
      cases hh : headerGet headers "www-authenticate" with
      | none => simp [hh] at h
      | some hdr =>
        simp only [hh] at h
        by_cases hc : code = 401
        · subst hc; exact ⟨headers, hdr, rfl, hh⟩
        · rw [if_pos hc] at h; simp at h
  · intro hp; unfold authChallenge; simp [hp]
  · intro code headers hp hc
    unfold authChallenge
    simp only [hp]
    cases hh : headerGet headers "www-authenticate" with
    | none => simp [hh]
    | some hdr => simp only [hh]; rw [if_pos hc]
  · intro code headers hp hh
    unfold authChallenge
    simp [hp, hh]

/-- Witness for C6: concrete protocol violations surface concrete
errors. -/
theorem probe_protocol_violations_witness :
    authChallenge probeNet "ok.example" =
      .error (.assertionError "expected auth challenge: ok.example") ∧
    authChallenge probeNet "bad.example" = .error (.httpError 500) ∧
    authChallenge probeNet "nohdr.example" = .error (.httpError 401) :=
  ⟨(probe_protocol_violations probeNet "ok.example").2.1 rfl,
   (probe_protocol_violations probeNet "bad.example").2.2.1 500
     [("www-authenticate", exampleHdr)] rfl (by decide),
   (probe_protocol_violations probeNet "nohdr.example").2.2.2 401 [] rfl rfl⟩

/-- Witness for C5: on a challenge header that carries no `scope`, the
cached parameters still contain a (defaulted) `scope` and no `realm`. -/
theorem challenge_params_realm_scope_witness :
    List.lookup "realm"
      [("service", "registry.example"), ("scope", "repository:user/image:pull")] = none ∧
    ∃ v, List.lookup "scope"
      [("service", "registry.example"), ("scope", "repository:user/image:pull")] = some v :=
  challenge_params_realm_scope listNet "registry-1.docker.io"
    "https://auth.example/token"
    [("service", "registry.example"), ("scope", "repository:user/image:pull")] rfl

/-! ## C4: the single-manifest branch pairs the blob architecture with the
`Docker-Content-Digest` header -/

/-- C4.  When the registry answers the manifest request with the
single-manifest content type, the result is exactly one pair whose
architecture comes from the config blob fetched in a second authenticated
GET and whose digest is the outer response's `Docker-Content-Digest`
header value — not the config blob's digest. -/
theorem single_manifest_result (net : Net)
    (reg img tag realm tok cd arch : String)
    (auth : List (String × String)) (resp : ManifestResp)
    (h1 : authChallenge net reg = .ok (realm, auth))
    (h2 : net.token (authUrl realm (specializeAuth auth img)) = .ok tok)
    (h3 : net.manifest reg img tag tok = .ok resp)
    (h4 : resp.contentType = SINGLE)
    (h5 : resp.configDigest = some cd)
    (h6 : net.blob reg img cd tok = .ok ⟨some arch⟩) :
    _digests net reg img tag = .ok [(arch, resp.dockerContentDigest)] := by
  unfold _digests
  simp only [h1, except_bind_ok, h2, h3, h4, h5, h6]
  have hne : ¬ (SINGLE = LIST ∨ SINGLE = INDEX) := by decide
  simp [hne, pure, Except.pure]

/-- Witness for C4: the spec scenario — `Docker-Content-Digest:
sha256:zzz` with a config blob reporting `arm64` resolves to
`[(arm64, sha256:zzz)]`. -/
theorem single_manifest_result_witness :
    _digests singleNet "registry.example" "library/redis" "5.0-alpine" =
      .ok [("arm64", "sha256:zzz")] :=
  single_manifest_result singleNet "registry.example" "library/redis"
    "5.0-alpine" "https://auth.example/token" "tok" "sha256:cfg" "arm64"
    [("service", "registry.example"), ("scope", "repository:user/image:pull")]
    ⟨SINGLE, "sha256:zzz", none, some "sha256:cfg"⟩
    rfl rfl rfl rfl rfl rfl

/-! ## C2: resolution results are NOT deduplicated by architecture -/

/-- Counterexample to C2 as stated: a manifest list advertising two
entries with `platform.architecture` `amd64` resolves to two pairs with
the same architecture, so the result is not deduplicated by
architecture. -/
theorem digests_duplicate_arch_cex :
    _digests dupNet "registry.example" "user/app" "1.0" =
      .ok [("amd64", "sha256:aaa"), ("amd64", "sha256:bbb")] ∧
    ¬ List.Pairwise (fun a b : String × String => a.1 ≠ b.1)
      [("amd64", "sha256:aaa"), ("amd64", "sha256:bbb")] :=
  ⟨rfl, by decide⟩

/-- C2 amended.  A successful resolution either comes from the list/index
branch — and then it is exactly the advertised `(architecture, digest)`
pairs, duplicates included, so it is deduplicated by architecture only
when the registry's advertised entries already are — or it comes from the
single-manifest branch and has at most one entry. -/
theorem digests_branch_shapes (net : Net) (reg img tag : String)
    (res : List (String × String))
    (h : _digests net reg img tag = .ok res) :
    (∃ resp ms, (resp.contentType = LIST ∨ resp.contentType = INDEX) ∧
        resp.manifests = some ms ∧
        res = ms.map (fun m => (m.architecture, m.digest)) ∧
        (List.Pairwise (fun a b => a.architecture ≠ b.architecture) ms →
          List.Pairwise (fun a b : String × String => a.1 ≠ b.1) res) ∧
        (∃ realm auth tok, authChallenge net reg = .ok (realm, auth) ∧
          net.token (authUrl realm (specializeAuth auth img)) = .ok tok ∧
          net.manifest reg img tag tok = .ok resp)) ∨
      res.length ≤ 1 := by
  unfold _digests at h
  cases hch : authChallenge net reg with
  | error e => simp [hch, except_bind_error] at h
  | ok ch =>
    obtain ⟨realm, auth⟩ := ch
    simp only [hch, except_bind_ok] at h
    cases htok : net.token (authUrl realm (specializeAuth auth img)) with
    | error e => simp [htok, except_bind_error] at h
    | ok tok =>
      simp only [htok, except_bind_ok] at h
      cases hm : net.manifest reg img tag tok with
      | error e => simp [hm, except_bind_error] at h
      | ok resp =>
        simp only [hm, except_bind_ok] at h
        by_cases hct : resp.contentType = LIST ∨ resp.contentType = INDEX
        · rw [if_pos hct] at h
          cases hms : resp.manifests with
          | none => simp [hms] at h
          | some ms =>
            simp only [hms, Except.pure] at h
            left
            refine ⟨resp, ms, hct, hms, ?_, ?_, realm, auth, tok, rfl, htok, hm⟩
            · have : ms.map (fun m => (m.architecture, m.digest)) = res := by
                simpa [pure, Except.pure] using h
              exact this.symm
            · intro hpw
              have hres : res = ms.map (fun m => (m.architecture, m.digest)) := by
                have : ms.map (fun m => (m.architecture, m.digest)) = res := by
                  simpa [pure, Except.pure] using h
                exact this.symm
              subst hres
              exact (List.pairwise_map).mpr hpw
        · rw [if_neg hct] at h
          by_cases hs : resp.contentType = SINGLE
          · rw [if_pos hs] at h
            cases hcd : resp.configDigest with
            | none => simp [hcd] at h
            | some cd =>
              simp only [hcd] at h
              cases hb : net.blob reg img cd tok with
              | error e => simp [hb, except_bind_error] at h
              | ok b =>
                simp only [hb, except_bind_ok] at h
                cases hba : b.architecture with
                | none => simp [hba] at h
                | some arch =>
                  simp only [hba] at h
                  right
                  have : [(arch, resp.dockerContentDigest)] = res := by
                    simpa [pure, Except.pure] using h
                  rw [← this]
                  simp
          · rw [if_neg hs] at h
            simp at h

/-- Witness for C2 (amended): a concrete list/index resolution takes the
left branch with exactly the advertised pairs. -/
theorem digests_branch_shapes_witness :
    (∃ resp ms,
        (resp.contentType = LIST ∨ resp.contentType = INDEX) ∧
        resp.manifests = some ms ∧
        [("amd64", "sha256:aaa"), ("arm64", "sha256:bbb"), ("s390x", "sha256:ccc")] =
          ms.map (fun m => (m.architecture, m.digest)) ∧
        (List.Pairwise (fun a b => a.architecture ≠ b.architecture) ms →
          List.Pairwise (fun a b : String × String => a.1 ≠ b.1)
            [("amd64", "sha256:aaa"), ("arm64", "sha256:bbb"), ("s390x", "sha256:ccc")]) ∧
        (∃ realm auth tok,
          authChallenge listNet "registry.example" = .ok (realm, auth) ∧
          listNet.token (authUrl realm (specializeAuth auth "library/postgres")) = .ok tok ∧
          listNet.manifest "registry.example" "library/postgres" "14-alpine" tok = .ok resp)) ∨
      ([("amd64", "sha256:aaa"), ("arm64", "sha256:bbb"), ("s390x", "sha256:ccc")] :
        List (String × String)).length ≤ 1 :=
  digests_branch_shapes listNet "registry.example" "library/postgres" "14-alpine"
    [("amd64", "sha256:aaa"), ("arm64", "sha256:bbb"), ("s390x", "sha256:ccc")] rfl

/-! ## C3: challenge specialization substitutes into EVERY value -/

lemma replaceAux_of_no_sub (old new : List Char) (fuel : Nat) (l : List Char)
    (h : hasSubList old l = false) : replaceAux old new fuel l = l := by
  induction fuel generalizing l with
  | zero => cases l <;> rfl
  | succ n ih =>
    cases l with
    | nil => rfl
    | cons c rest =>
      rw [hasSubList, Bool.or_eq_false_iff] at h
      rw [replaceAux, if_neg (fun hc => by rw [h.1] at hc; exact absurd hc.2 (by simp))]
      rw [ih rest h.2]

lemma pyReplace_of_no_sub (s old new : String) (h : hasSub s old = false) :
    pyReplace s old new = s := by
  cases s with
  | mk data => exact congrArg String.mk (replaceAux_of_no_sub _ _ _ _ h)

/-- Counterexample to C3 as stated: the source substitutes the
`user/image` placeholder into EVERY parameter value, so a cached
challenge whose `service` value contains the placeholder has a non-scope
key mutated as well. -/
theorem specialize_mutates_other_key_cex :
    specializeAuth [("service", "user/image"), ("scope", "repository:user/image:pull")]
        "library/redis" =
      [("service", "library/redis"), ("scope", "repository:library/redis:pull")] ∧
    List.lookup "service"
        (specializeAuth
          [("service", "user/image"), ("scope", "repository:user/image:pull")]
          "library/redis") ≠
      List.lookup "service"
        [("service", "user/image"), ("scope", "repository:user/image:pull")] :=
  ⟨rfl, by decide⟩

/-- C3 amended.  Specializing the cached challenge applies the textual
replacement of `user/image` by the repository to every parameter value;
whenever no value other than `scope` contains the placeholder — the case
for well-formed challenges — only the `scope` entry changes, and hence
the token-endpoint query string differs from the unspecialized one only
in the scope component. -/
theorem specialize_scope_only (auth : List (String × String)) (image : String)
    (h : ∀ kv ∈ auth, kv.1 ≠ "scope" → hasSub kv.2 "user/image" = false) :
    specializeAuth auth image =
      auth.map (fun kv =>
        if kv.1 = "scope" then (kv.1, pyReplace kv.2 "user/image" image) else kv) ∧
    ∀ realm, authUrl realm (specializeAuth auth image) =
      authUrl realm (auth.map fun kv =>
        if kv.1 = "scope" then (kv.1, pyReplace kv.2 "user/image" image) else kv) := by
  have hmap : specializeAuth auth image =
      auth.map (fun kv =>
        if kv.1 = "scope" then (kv.1, pyReplace kv.2 "user/image" image) else kv) := by
    unfold specializeAuth
    apply List.map_congr_left
    intro kv hkv
    by_cases hk : kv.1 = "scope"
    · simp [hk]
    · simp [hk, pyReplace_of_no_sub _ _ _ (h kv hkv hk)]
  exact ⟨hmap, fun realm => by rw [hmap]⟩

/-- Witness for C3 (amended): a real docker.io-style challenge, whose
only placeholder occurrence is in `scope`, specializes `scope` alone. -/
theorem specialize_scope_only_witness :
    (∀ kv ∈ ([("service", "registry.docker.io"),
        ("scope", "repository:user/image:pull")] : List (String × String)),
      kv.1 ≠ "scope" → hasSub kv.2 "user/image" = false) ∧
    specializeAuth
        [("service", "registry.docker.io"), ("scope", "repository:user/image:pull")]
        "library/postgres" =
      [("service", "registry.docker.io"),
        ("scope", "repository:user/image:pull")].map (fun kv =>
          if kv.1 = "scope" then (kv.1, pyReplace kv.2 "user/image" "library/postgres")
          else kv) :=
  ⟨by decide,
    (specialize_scope_only
      [("service", "registry.docker.io"), ("scope", "repository:user/image:pull")]
      "library/postgres" (by decide)).1⟩

/-! ## C7: destination lookups tolerate exactly 403 and 404 -/

/-- C7.  A destination-side lookup failing with HTTP 404 or 403 is turned
into the empty digest list instead of an error; a lookup failing with any
other HTTP status propagates the `HTTPError` unmodified. -/
theorem dest_lookup_tolerates_403_404 (net : Net) (img : Image) (code : Nat)
    (h : _digests net "ghcr.io" (destImage img) img.tag = .error (.httpError code)) :
    ((code = 403 ∨ code = 404) → targetDigestInfo net img = .ok []) ∧
    (code ≠ 403 → code ≠ 404 →
      targetDigestInfo net img = .error (.httpError code)) := by
  unfold targetDigestInfo
  constructor
  · intro hc
    simp only [h]
    have hcon : ¬ (code ≠ 403 ∧ code ≠ 404) := by
      rcases hc with h3 | h4
      · exact fun hp => hp.1 h3
      · exact fun hp => hp.2 h4
    rw [if_neg hcon]
  · intro h3 h4
    simp only [h]
    rw [if_pos ⟨h3, h4⟩]

/-- Witness for C7: concrete 404 and 403 lookups yield the empty digest
list, a concrete 500 propagates. -/
theorem dest_lookup_tolerates_403_404_witness :
    targetDigestInfo destNet
      ⟨"registry-1.docker.io", "library/postgres", "missing", ["sha256:s1"]⟩ = .ok [] ∧
    targetDigestInfo destNet
      ⟨"registry-1.docker.io", "library/postgres", "forbidden", ["sha256:s1"]⟩ = .ok [] ∧
    targetDigestInfo destNet
      ⟨"registry-1.docker.io", "library/postgres", "other", ["sha256:s1"]⟩ =
      .error (.httpError 500) :=
  ⟨(dest_lookup_tolerates_403_404 destNet
      ⟨"registry-1.docker.io", "library/postgres", "missing", ["sha256:s1"]⟩ 404 rfl).1
      (Or.inr rfl),
   (dest_lookup_tolerates_403_404 destNet
      ⟨"registry-1.docker.io", "library/postgres", "forbidden", ["sha256:s1"]⟩ 403 rfl).1
      (Or.inl rfl),
   (dest_lookup_tolerates_403_404 destNet
      ⟨"registry-1.docker.io", "library/postgres", "other", ["sha256:s1"]⟩ 500 rfl).2
      (by decide) (by decide)⟩

/-! ## C8: architecture filtering is a pure post-resolution filter -/

/-- C8.  A successful `Image.update` is exactly: a full resolution (the
filter never short-circuits it) followed by the pointwise filter of the
raw (architecture, digest) pairs by allow-list membership; and the filter
is invariant under any reordering of the allow-list. -/
theorem update_filters_after_resolution (net : Net) (img out : Image)
    (h : Image.update net img = .ok out) :
    ∃ pairs, _digests net img.registry img.source img.tag = .ok pairs ∧
      out = { img with digests := archFilter ARCHS pairs } ∧
      ∀ allow : List String, allow.Perm ARCHS →
        archFilter allow pairs = archFilter ARCHS pairs := by
  unfold Image.update at h
  cases hd : _digests net img.registry img.source img.tag with
  | error e => rw [hd, except_bind_error] at h; simp at h
  | ok pairs =>
    rw [hd, except_bind_ok] at h
    refine ⟨pairs, rfl, ?_, ?_⟩
    · simpa [pure, Except.pure, eq_comm] using h
    · intro allow hperm
      unfold archFilter
      congr 1
      apply List.filter_congr
      intro p _
      exact decide_eq_decide.mpr hperm.mem_iff

/-- Witness for C8: the spec scenario — a list with `amd64`, `arm64`,
`s390x` filtered by the allow-list keeps exactly `amd64` and `arm64`. -/
theorem update_filters_after_resolution_witness :
    ∃ pairs,
      _digests listNet "registry.example" "library/postgres" "14-alpine" = .ok pairs ∧
      (⟨"registry.example", "library/postgres", "14-alpine",
        ["sha256:aaa", "sha256:bbb"]⟩ : Image) =
        ⟨"registry.example", "library/postgres", "14-alpine", archFilter ARCHS pairs⟩ ∧
      ∀ allow : List String, allow.Perm ARCHS →
        archFilter allow pairs = archFilter ARCHS pairs :=
  update_filters_after_resolution listNet
    ⟨"registry.example", "library/postgres", "14-alpine", []⟩
    ⟨"registry.example", "library/postgres", "14-alpine",
      ["sha256:aaa", "sha256:bbb"]⟩ rfl

/-! ## C1: the digest diff only gates the transfer, which then moves ALL
known digests -/

lemma insertStr_ne_nil (x : String) (l : List String) : insertStr x l ≠ [] := by
  cases l with
  | nil => simp [insertStr]
  | cons h t =>
    rw [insertStr]
    by_cases hc : charListLt h.data x.data = true
    · rw [if_pos hc]; simp
    · rw [if_neg hc]; simp

lemma sortStrings_eq_nil {l : List String} : sortStrings l = [] ↔ l = [] := by
  cases l with
  | nil => simp [sortStrings]
  | cons h t =>
    rw [sortStrings]
    simp [insertStr_ne_nil]

lemma todoOf_eq_nil {ds ts : List String} :
    todoOf ds ts = [] ↔ ∀ d ∈ ds, ts.contains d = true := by
  unfold todoOf
  rw [sortStrings_eq_nil, List.dedup_eq_nil, List.filter_eq_nil_iff]
  simp

/-- Counterexample to C1 as stated: the destination already holds
`sha256:d1` but not `sha256:d2`, yet the sync transfers BOTH digests —
including the one the destination already holds — because the diff only
decides whether any transfer happens. -/
theorem sync_transfers_held_digest_cex :
    targetDigestInfo holdsD1Net
        ⟨"registry-1.docker.io", "library/redis", "5.0-alpine",
          ["sha256:d1", "sha256:d2"]⟩ =
      .ok [("amd64", "sha256:d1")] ∧
    syncTransfers holdsD1Net
        ⟨"registry-1.docker.io", "library/redis", "5.0-alpine",
          ["sha256:d1", "sha256:d2"]⟩ =
      .ok ["sha256:d1", "sha256:d2"] ∧
    "sha256:d1" ∈ ["sha256:d1", "sha256:d2"] :=
  ⟨rfl, rfl, by decide⟩

/-- C1 amended.  For every image the sync command diffs the known digests
against the destination; when every known digest is already held, nothing
is transferred, but when ANY digest is missing, ALL of the image's known
digests are pulled, tagged and pushed (the diff gates the transfer; it
does not select the transferred digests). -/
theorem sync_transfer_decision (net : Net) (img : Image)
    (res : List String) (info : List (String × String))
    (hi : targetDigestInfo net img = .ok info)
    (h : syncTransfers net img = .ok res) :
    ((∀ d ∈ img.digests, (info.map Prod.snd).contains d = true) → res = []) ∧
    ((∃ d ∈ img.digests, ¬ (info.map Prod.snd).contains d = true) →
      res = img.digests) := by
  unfold syncTransfers at h
  rw [hi, except_bind_ok] at h
  constructor
  · intro hall
    rw [if_pos (todoOf_eq_nil.mpr hall)] at h
    simpa [pure, Except.pure, eq_comm] using h
  · rintro ⟨d, hd, hnc⟩
    have hne : ¬ todoOf img.digests (info.map Prod.snd) = [] :=
      fun he => hnc (todoOf_eq_nil.mp he d hd)
    rw [if_neg hne] at h
    simpa [pure, Except.pure, eq_comm] using h

/-- Witness for C1 (amended): with `sha256:d1` held and `sha256:d2`
missing, the transferred set is the full digest list. -/
theorem sync_transfer_decision_witness :
    ((∀ d ∈ (["sha256:d1", "sha256:d2"] : List String),
        (([("amd64", "sha256:d1")] : List (String × String)).map Prod.snd).contains d
          = true) →
      (["sha256:d1", "sha256:d2"] : List String) = []) ∧
    ((∃ d ∈ (["sha256:d1", "sha256:d2"] : List String),
        ¬ (([("amd64", "sha256:d1")] : List (String × String)).map Prod.snd).contains d
          = true) →
      (["sha256:d1", "sha256:d2"] : List String) = ["sha256:d1", "sha256:d2"]) :=
  sync_transfer_decision holdsD1Net
    ⟨"registry-1.docker.io", "library/redis", "5.0-alpine",
      ["sha256:d1", "sha256:d2"]⟩
    ["sha256:d1", "sha256:d2"] [("amd64", "sha256:d1")] rfl rfl

/-! ## C9: at most one probe per host (single flight via the cache) -/

lemma lookup_append_left {β : Type} {k : String} {v : β} {l l' : List (String × β)}
    (h : l.lookup k = some v) : (l ++ l').lookup k = some v := by
  induction l with
  | nil => simp [List.lookup] at h
  | cons kv t ih =>
    by_cases hk : k = kv.1
    · subst hk
      simp only [List.lookup, beq_self_eq_true] at h ⊢
      exact h
    · have hbeq : (k == kv.1) = false := by simpa [beq_iff_eq] using hk
      simp only [List.cons_append, List.lookup, hbeq] at h ⊢
      exact ih h

/-- C9.  One process run of challenge acquisitions: for any host whose
challenge acquisition succeeds, at most one probe is performed if the
host is uncached (none if it is already cached), and an existing cache
entry for the host is never changed by the run (read-only after first
population). -/
theorem challenge_single_flight (net : Net) (regs : List String)
    (cache : List (String × (String × List (String × String)))) (h : String)
    (hok : ∃ ch, authChallenge net h = .ok ch) :
    List.count h (runChallenges net regs cache).2 ≤
      (if cache.lookup h = none then 1 else 0) ∧
    ∀ ch0, cache.lookup h = some ch0 →
      ((runChallenges net regs cache).1).lookup h = some ch0 := by
  induction regs generalizing cache with
  | nil =>
    refine ⟨by simp [runChallenges], fun ch0 hc => by simpa [runChallenges] using hc⟩
  | cons reg rest ih =>
    cases hcl : cache.lookup reg with
    | some c =>
      have hr : runChallenges net (reg :: rest) cache = runChallenges net rest cache := by
        simp only [runChallenges, hcl]
      rw [hr]
      exact ih cache
    | none =>
      cases hch : authChallenge net reg with
      | ok ch =>
        have hr : runChallenges net (reg :: rest) cache =
            ((runChallenges net rest (cache ++ [(reg, ch)])).1,
              reg :: (runChallenges net rest (cache ++ [(reg, ch)])).2) := by
          simp only [runChallenges, hcl, hch]
        rw [hr]
        by_cases hh : reg = h
        · subst hh
          have hlook : (cache ++ [(reg, ch)]).lookup reg = some ch := by
            rw [lookup_append_of_none hcl]
            simp [List.lookup]
          constructor
          · rw [if_pos hcl, List.count_cons_self]
            have hb := (ih (cache ++ [(reg, ch)])).1
            rw [hlook] at hb
            simp at hb
            omega
          · intro ch0 hch0
            rw [hcl] at hch0
            cases hch0
        · have hlook : (cache ++ [(reg, ch)]).lookup h = cache.lookup h := by
            cases hch2 : cache.lookup h with
            | some v => rw [lookup_append_left hch2]
            | none =>
              rw [lookup_append_of_none hch2]
              have hbeq : (h == reg) = false := by
                simpa [beq_iff_eq] using Ne.symm hh
              simp [List.lookup, hbeq]
          constructor
          · rw [List.count_cons_of_ne (Ne.symm hh)]
            have hb := (ih (cache ++ [(reg, ch)])).1
            rw [hlook] at hb
            exact hb
          · intro ch0 hch0
            exact (ih (cache ++ [(reg, ch)])).2 ch0 (by rw [hlook]; exact hch0)
      | error e =>
        have hreg : reg ≠ h := by
          intro he
          obtain ⟨c0, hc0⟩ := hok
          rw [← he, hch] at hc0
          cases hc0
        have hr : runChallenges net (reg :: rest) cache =
            ((runChallenges net rest cache).1,
              reg :: (runChallenges net rest cache).2) := by
          simp only [runChallenges, hcl, hch]
        rw [hr]
        refine ⟨?_, (ih cache).2⟩
        rw [List.count_cons_of_ne (Ne.symm hreg)]
        exact (ih cache).1

/-- Witness for C9: three requests against two hosts perform exactly one
probe for the repeated host. -/
theorem challenge_single_flight_witness :
    (runChallenges listNet
        ["registry-1.docker.io", "registry-1.docker.io", "other.example"] []).2 =
      ["registry-1.docker.io", "other.example"] ∧
    List.count "registry-1.docker.io"
        (runChallenges listNet
          ["registry-1.docker.io", "registry-1.docker.io", "other.example"] []).2 ≤
      (if ([] : List (String × (String × List (String × String)))).lookup
          "registry-1.docker.io" = none then 1 else 0) :=
  ⟨rfl,
    (challenge_single_flight listNet
      ["registry-1.docker.io", "registry-1.docker.io", "other.example"] []
      "registry-1.docker.io"
      ⟨("https://auth.example/token",
        [("service", "registry.example"), ("scope", "repository:user/image:pull")]),
        rfl⟩).1⟩

/-! ## C10: the update command rewrites the table in sorted order -/

lemma str_eq_of_data_eq {a b : String} (h : a.data = b.data) : a = b := by
  cases a; cases b; exact congrArg String.mk h

lemma charListLt_total (a b : List Char) (hab : charListLt a b = false) :
    a = b ∨ charListLt b a = true := by
  induction a generalizing b with
  | nil =>
    cases b with
    | nil => exact Or.inl rfl
    | cons y ys => rw [charListLt] at hab; cases hab
  | cons x xs ih =>
    cases b with
    | nil => exact Or.inr rfl
    | cons y ys =>
      rw [charListLt, Bool.or_eq_false_iff] at hab
      obtain ⟨h1, h2⟩ := hab
      have hxy : ¬ x < y := of_decide_eq_false h1
      by_cases he : x = y
      · subst he
        rw [beq_self_eq_true, Bool.true_and] at h2
        rcases ih ys h2 with h4 | h4
        · exact Or.inl (by rw [h4])
        · right
          rw [charListLt, h4]
          simp
      · have hyx : y < x := by
          rcases lt_trichotomy x y with hlt | heq | hgt
          · exact absurd hlt hxy
          · exact absurd heq he
          · exact hgt
        right
        rw [charListLt]
        simp [hyx]

/-- The generic totality step of a lexicographic comparison: if the
recursive tail comparison is total, so is `lt-or-eq-and-tail`. -/
lemma lexStep {sa sb : String} {xa xb : Bool}
    (hrec : xa = false → xb = true)
    (h : (charListLt sa.data sb.data || (sa == sb && xa)) = false) :
    (charListLt sb.data sa.data || (sb == sa && xb)) = true := by
  rw [Bool.or_eq_false_iff] at h
  obtain ⟨h1, h2⟩ := h
  rcases charListLt_total _ _ h1 with he | hlt
  · have hs : sa = sb := str_eq_of_data_eq he
    subst hs
    rw [beq_self_eq_true, Bool.true_and] at h2
    simp [hrec h2]
  · simp [hlt]

lemma listStrLeB_total (a b : List String) (h : listStrLeB a b = false) :
    listStrLeB b a = true := by
  induction a generalizing b with
  | nil => rw [listStrLeB] at h; cases h
  | cons x xs ih =>
    cases b with
    | nil => rfl
    | cons y ys =>
      rw [listStrLeB] at h ⊢
      exact lexStep (fun h2 => ih ys h2) h

lemma imageLeB_total (a b : Image) (h : imageLeB a b = false) :
    imageLeB b a = true := by
  unfold imageLeB at h ⊢
  exact lexStep
    (fun h2 => lexStep
      (fun h3 => lexStep
        (fun h4 => listStrLeB_total _ _ h4) h3) h2) h

lemma chain'_insertImage (x : Image) {l : List Image}
    (h : List.Chain' (fun a b => imageLeB a b = true) l) :
    List.Chain' (fun a b => imageLeB a b = true) (insertImage x l) := by
  induction l with
  | nil => simp [insertImage]
  | cons hd t ih =>
    rw [insertImage]
    by_cases hle : imageLeB x hd = true
    · rw [if_pos hle]
      exact List.Chain'.cons hle h
    · rw [if_neg hle]
      have hx : imageLeB hd x = true :=
        imageLeB_total x hd (Bool.eq_false_iff.mpr hle)
      have hit := ih h.tail
      rw [List.chain'_cons']
      refine ⟨?_, hit⟩
      intro y hy
      cases t with
      | nil =>
        simp [insertImage] at hy
        subst hy
        exact hx
      | cons t0 tt =>
        rw [insertImage] at hy
        by_cases hle2 : imageLeB x t0 = true
        · rw [if_pos hle2] at hy
          simp at hy
          subst hy
          exact hx
        · rw [if_neg hle2] at hy
          simp at hy
          subst hy
          exact (List.chain'_cons.mp h).1

lemma insertImage_perm (x : Image) (l : List Image) :
    (insertImage x l).Perm (x :: l) := by
  induction l with
  | nil => exact List.Perm.refl _
  | cons hd t ih =>
    rw [insertImage]
    by_cases hle : imageLeB x hd = true
    · rw [if_pos hle]
    · rw [if_neg hle]
      exact (ih.cons hd).trans (List.Perm.swap x hd t)

lemma sortImages_perm (l : List Image) : (sortImages l).Perm l := by
  induction l with
  | nil => exact List.Perm.refl _
  | cons hd t ih =>
    rw [sortImages]
    exact (insertImage_perm hd (sortImages t)).trans (ih.cons hd)

lemma sortImages_chain (l : List Image) :
    List.Chain' (fun a b => imageLeB a b = true) (sortImages l) := by
  induction l with
  | nil => simp [sortImages]
  | cons hd t ih =>
    rw [sortImages]
    exact chain'_insertImage hd ih

/-- C10.  A successful run of the update command is exactly: every image
re-resolved (in declaration order), then the results sorted by the
lexicographic tuple order (registry, source, tag, digests) before any
table text is generated — the output is a sorted permutation of the
updated images, whatever their previous order. -/
theorem update_command_sorted (net : Net) (images out : List Image)
    (h : updateCommand net images = .ok out) :
    (∃ updated, images.mapM (Image.update net) = .ok updated ∧
      out = sortImages updated ∧ out.Perm updated) ∧
    List.Chain' (fun a b => imageLeB a b = true) out := by
  unfold updateCommand at h
  cases hm : images.mapM (Image.update net) with
  | error e => rw [hm, except_bind_error] at h; simp at h
  | ok updated =>
    rw [hm, except_bind_ok] at h
    have hout : out = sortImages updated := by
      simpa [pure, Except.pure, eq_comm] using h
    subst hout
    exact ⟨⟨updated, rfl, rfl, sortImages_perm updated⟩, sortImages_chain updated⟩

/-- Witness for C10: two images listed out of order come back resolved
and sorted by the tuple order. -/
theorem update_command_sorted_witness :
    (∃ updated,
      ([⟨"registry-1.docker.io", "library/redis", "5.0-alpine", []⟩,
        ⟨"registry-1.docker.io", "library/postgres", "14", []⟩] : List Image).mapM
          (Image.update listNet) = .ok updated ∧
      ([⟨"registry-1.docker.io", "library/postgres", "14",
          ["sha256:aaa", "sha256:bbb"]⟩,
        ⟨"registry-1.docker.io", "library/redis", "5.0-alpine",
          ["sha256:aaa", "sha256:bbb"]⟩] : List Image) = sortImages updated ∧
      List.Perm
        [⟨"registry-1.docker.io", "library/postgres", "14",
            ["sha256:aaa", "sha256:bbb"]⟩,
          ⟨"registry-1.docker.io", "library/redis", "5.0-alpine",
            ["sha256:aaa", "sha256:bbb"]⟩] updated) ∧
    List.Chain' (fun a b => imageLeB a b = true)
      [⟨"registry-1.docker.io", "library/postgres", "14",
          ["sha256:aaa", "sha256:bbb"]⟩,
        ⟨"registry-1.docker.io", "library/redis", "5.0-alpine",
          ["sha256:aaa", "sha256:bbb"]⟩] :=
  update_command_sorted listNet
    [⟨"registry-1.docker.io", "library/redis", "5.0-alpine", []⟩,
      ⟨"registry-1.docker.io", "library/postgres", "14", []⟩]
    [⟨"registry-1.docker.io", "library/postgres", "14",
        ["sha256:aaa", "sha256:bbb"]⟩,
      ⟨"registry-1.docker.io", "library/redis", "5.0-alpine",
        ["sha256:aaa", "sha256:bbb"]⟩] rfl
